import Mathlib

/-!
Shallow embedding of the trade settlement engine of server/routes.ts
(the exported `resolvePendingTrades` and the `POST /api/trades` handler
of `registerRoutes`), together with the relevant parts of
shared/schema.ts (`trades`, `accounts`, `insertTradeSchema`).

Modelling conventions:
* Monetary amounts are exact rationals (`ℚ`).  The source stores them as
  decimal strings and converts with `numToString` (`toFixed(8)`) and
  `parseFloat`; per the design notes the round trip is treated as
  lossless, so both conversions are modelled as the identity on `ℚ`.
* `Math.random()` draws are explicit parameters: the resolution sweep
  receives a stream `rand : ℕ → ℚ × ℚ` supplying, for each settled
  trade, the outcome draw `r` and the branch draw used for the
  profit/loss fraction.
* Timestamps (`Date.now()`, `delivery_time`) are naturals (epoch ms).
* Database rows are lists; a drizzle `update ... where eq(col, v)`
  is a map that rewrites every row matching the predicate, and
  `findFirst` / destructuring `[row] = select ...` is `List.find?`.
-/

namespace TradeEngine

/-- The `direction` column: `'up' | 'down'` (insertTradeSchema). -/
inductive Direction where
  | up
  | down
deriving DecidableEq, Repr

/-- The `type` column: `'buy' | 'sell'` (insertTradeSchema). -/
inductive OrderType where
  | buy
  | sell
deriving DecidableEq, Repr

/-- The `status` column as constrained by `insertTradeSchema`
(`z.enum(['pending', 'completed'])`) and the resolution sweep. -/
inductive Status where
  | pending
  | completed
deriving DecidableEq, Repr

/-- The `outcome` column: `'win' | 'loss' | 'draw'`. -/
inductive Outcome where
  | win
  | loss
  | draw
deriving DecidableEq, Repr

/-- A row of the `accounts` table (the columns the engine touches). -/
structure AccountRow where
  id : String
  balance : ℚ
deriving DecidableEq, Repr

/-- A row of the `trades` table (shared/schema.ts). -/
structure TradeRow where
  id : String
  user_id : String
  crypto_id : String
  crypto_name : String
  crypto_symbol : String
  order_type : OrderType
  direction : Direction
  amount : ℚ
  initial_price : ℚ
  delivery_time : ℕ
  status : Status
  timestamp : ℕ
  email : Option String
  gain_percentage : Option ℚ
  final_amount : Option ℚ
  simulated_final_price : Option ℚ
  current_trade_value : Option ℚ
  current_gain_loss_percentage : Option ℚ
  outcome : Option Outcome
deriving DecidableEq, Repr

/-- The durable store: the `accounts` and `trades` tables. -/
structure EngineState where
  accounts : List AccountRow
  trades : List TradeRow
deriving DecidableEq, Repr

/-- `const WIN_PERCENTAGE_SIMULATION = 0.85`. -/
def WIN_PERCENTAGE_SIMULATION : ℚ := 85 / 100

/-- `const MIN_PROFIT_PERCENTAGE = 0.07`. -/
def MIN_PROFIT_PERCENTAGE : ℚ := 7 / 100

/-- `const MAX_PROFIT_PERCENTAGE = 0.19`. -/
def MAX_PROFIT_PERCENTAGE : ℚ := 19 / 100

/-- `const MIN_LOSS_PERCENTAGE = 0.01`. -/
def MIN_LOSS_PERCENTAGE : ℚ := 1 / 100

/-- `const MAX_LOSS_PERCENTAGE = 0.05`. -/
def MAX_LOSS_PERCENTAGE : ℚ := 5 / 100

/-- The values computed by the simulation block of `resolvePendingTrades`
(routes.ts lines 143–167) for one trade, given the outcome draw `r`
(`const randomNumber = Math.random()`) and the branch draw `p`
(the `Math.random()` inside the taken branch). -/
structure SettleResult where
  outcome : Outcome
  gainPercentage : ℚ
  finalAmount : ℚ
  simulatedFinalPrice : ℚ
deriving DecidableEq, Repr

/-- The win/loss simulation of `resolvePendingTrades`:
if `randomNumber < WIN_PERCENTAGE_SIMULATION` draw a profit fraction
`MIN_PROFIT_PERCENTAGE + p * (MAX_PROFIT_PERCENTAGE - MIN_PROFIT_PERCENTAGE)`,
else a loss fraction
`MIN_LOSS_PERCENTAGE + p * (MAX_LOSS_PERCENTAGE - MIN_LOSS_PERCENTAGE)`,
with the exact formulas of lines 151–167 of routes.ts. -/
def computeSettlement (initialAmountInvested initialPriceAtTrade r p : ℚ) :
    SettleResult :=
  if r < WIN_PERCENTAGE_SIMULATION then
    let randomProfitPercentage :=
      MIN_PROFIT_PERCENTAGE + p * (MAX_PROFIT_PERCENTAGE - MIN_PROFIT_PERCENTAGE)
    let profitAmount := initialAmountInvested * randomProfitPercentage
    { outcome := Outcome.win
      gainPercentage := randomProfitPercentage * 100
      finalAmount := initialAmountInvested + profitAmount
      simulatedFinalPrice := initialPriceAtTrade * (1 + randomProfitPercentage) }
  else
    let randomLossPercentage :=
      MIN_LOSS_PERCENTAGE + p * (MAX_LOSS_PERCENTAGE - MIN_LOSS_PERCENTAGE)
    let lossAmount := initialAmountInvested * randomLossPercentage
    { outcome := Outcome.loss
      gainPercentage := -randomLossPercentage * 100
      finalAmount := initialAmountInvested - lossAmount
      simulatedFinalPrice := initialPriceAtTrade * (1 - randomLossPercentage) }

/-- The trade-row update of `resolvePendingTrades` (lines 182–193):
`status = 'completed'` plus the settlement fields, with the mirrors
`current_trade_value = finalAmount` and
`current_gain_loss_percentage = gainPercentage`. -/
def applySettlement (t : TradeRow) (res : SettleResult) : TradeRow :=
  { t with
    status := Status.completed
    outcome := some res.outcome
    gain_percentage := some res.gainPercentage
    final_amount := some res.finalAmount
    simulated_final_price := some res.simulatedFinalPrice
    current_trade_value := some res.finalAmount
    current_gain_loss_percentage := some res.gainPercentage }

/-- The settled version of a captured trade row: the fields written by
`resolvePendingTrades` for that row, computed from its own
`amount` and `initial_price`. -/
def settleRow (t : TradeRow) (r p : ℚ) : TradeRow :=
  applySettlement t (computeSettlement t.amount t.initial_price r p)

/-- The balance credit of `resolvePendingTrades` (lines 169–180):
select the owning account; if present, set its balance to the old
balance plus `finalAmount`; if absent, log and leave the ledger
unchanged. -/
def creditAccount (accs : List AccountRow) (uid : String) (amt : ℚ) :
    List AccountRow :=
  match accs.find? (fun a => a.id == uid) with
  | some userAccount =>
      accs.map (fun a =>
        if a.id == uid then { a with balance := userAccount.balance + amt } else a)
  | none => accs

/-- One per-trade transaction of `resolvePendingTrades` (the
`db.transaction` body, lines 137–198) applied to the captured row
`trade` from the initial due query: re-check only
`nowMs >= deliveryTimeMs`; if due, compute the settlement from the
captured row, credit the owning account, and rewrite every `trades`
row whose `id` matches with the settlement fields. -/
def resolveTradeTx (s : EngineState) (trade : TradeRow) (nowMs : ℕ)
    (rp : ℚ × ℚ) : EngineState :=
  if trade.delivery_time ≤ nowMs then
    let res := computeSettlement trade.amount trade.initial_price rp.1 rp.2
    { accounts := creditAccount s.accounts trade.user_id res.finalAmount
      trades := s.trades.map (fun t =>
        if t.id == trade.id then applySettlement t res else t) }
  else
    s

/-- The `where(and(eq(trades.status, 'pending'), lte(trades.delivery_time, nowMs)))`
query predicate of `resolvePendingTrades` (line 132). -/
def isDuePending (nowMs : ℕ) (t : TradeRow) : Bool :=
  t.status == Status.pending && t.delivery_time ≤ nowMs

/-- The `for (const trade of pendingTrades)` loop of
`resolvePendingTrades` (lines 136–199): settle each captured row in its
own transaction, consuming one pair of random draws per row that passes
the in-transaction deadline check, and count the rows settled. -/
def resolveLoop (s : EngineState) (pendingTrades : List TradeRow)
    (nowMs : ℕ) (rand : ℕ → ℚ × ℚ) (i : ℕ) : EngineState × ℕ :=
  match pendingTrades with
  | [] => (s, 0)
  | trade :: rest =>
      if trade.delivery_time ≤ nowMs then
        let out := resolveLoop (resolveTradeTx s trade nowMs (rand i)) rest
          nowMs rand (i + 1)
        (out.1, out.2 + 1)
      else
        resolveLoop s rest nowMs rand i

/-- `resolvePendingTrades` (routes.ts lines 125–205): query the due
pending trades at `nowMs`, then settle each in its own transaction.
Returns the final store and the number of trades resolved. -/
def resolvePendingTrades (s : EngineState) (nowMs : ℕ)
    (rand : ℕ → ℚ × ℚ) : EngineState × ℕ :=
  let pendingTrades := s.trades.filter (isDuePending nowMs)
  resolveLoop s pendingTrades nowMs rand 0

/-- A request accepted by `insertTradeSchema` (shared/schema.ts lines
146–167), after zod validation: `status` has its default `'pending'`
applied when absent, the settlement fields are `null` when absent. -/
structure InsertTrade where
  id : String
  userId : String
  cryptoId : String
  cryptoName : String
  cryptoSymbol : String
  order_type : OrderType
  direction : Direction
  amount : ℚ
  entryPrice : ℚ
  deliveryTime : ℕ
  status : Status
  timestamp : ℕ
  email : Option String
  gainPercentage : Option ℚ
  finalAmount : Option ℚ
  simulatedFinalPrice : Option ℚ
  currentTradeValue : Option ℚ
  currentGainLossPercentage : Option ℚ
  outcome : Option Outcome
deriving DecidableEq, Repr

/-- The caller-facing errors of `POST /api/trades`: 404 for a missing
account, 400 for an insufficient balance. -/
inductive CreateError where
  | accountNotFound
  | insufficientBalance
deriving DecidableEq, Repr

/-- The `tradeToInsert` record built by `POST /api/trades` (routes.ts
lines 531–551).  Note `current_trade_value` is populated from the
request's `finalAmount` field, and `status`/`outcome` and the
settlement fields are copied from the validated request. -/
def tradeToInsert (v : InsertTrade) : TradeRow :=
  { id := v.id
    user_id := v.userId
    crypto_id := v.cryptoId
    crypto_name := v.cryptoName
    crypto_symbol := v.cryptoSymbol
    order_type := v.order_type
    direction := v.direction
    amount := v.amount
    initial_price := v.entryPrice
    delivery_time := v.deliveryTime
    status := v.status
    timestamp := v.timestamp
    email := v.email
    outcome := v.outcome
    gain_percentage := v.gainPercentage
    final_amount := v.finalAmount
    simulated_final_price := v.simulatedFinalPrice
    current_trade_value := v.finalAmount
    current_gain_loss_percentage := v.currentGainLossPercentage }

/-- The `POST /api/trades` handler (routes.ts lines 517–564) on a
request already validated by `insertTradeSchema`: look up the account;
404 if absent; 400 if `balance < amount`; otherwise, in one
transaction, set the account balance to `balance - amount` and append
the trade row.  On an error the store is returned unchanged. -/
def createTrade (s : EngineState) (v : InsertTrade) :
    Except CreateError Unit × EngineState :=
  match s.accounts.find? (fun a => a.id == v.userId) with
  | none => (Except.error CreateError.accountNotFound, s)
  | some userAccount =>
      if userAccount.balance < v.amount then
        (Except.error CreateError.insufficientBalance, s)
      else
        let newBalance := userAccount.balance - v.amount
        (Except.ok (),
          { accounts := s.accounts.map (fun a =>
              if a.id == v.userId then { a with balance := newBalance } else a)
            trades := s.trades ++ [tradeToInsert v] })

/-- The resolution loop in the presence of a per-trade transaction
failure, modelled by an oracle `failing` on trade ids: a failure inside
`db.transaction` rolls that transaction back and the exception
propagates out of the `for` loop to the sweep-level `catch` (routes.ts
lines 200–204), so the remaining captured rows are not processed.  The
Boolean result records whether the sweep was aborted by a failure. -/
def resolveLoopF (s : EngineState) (pendingTrades : List TradeRow)
    (nowMs : ℕ) (rand : ℕ → ℚ × ℚ) (i : ℕ) (failing : String → Bool) :
    EngineState × Bool :=
  match pendingTrades with
  | [] => (s, false)
  | trade :: rest =>
      if failing trade.id then
        (s, true)
      else if trade.delivery_time ≤ nowMs then
        resolveLoopF (resolveTradeTx s trade nowMs (rand i)) rest
          nowMs rand (i + 1) failing
      else
        resolveLoopF s rest nowMs rand i failing

/-- `resolvePendingTrades` with the failure oracle: the sweep-level
`catch` swallows the exception, so the function always returns a
store (it never throws). -/
def resolvePendingTradesF (s : EngineState) (nowMs : ℕ)
    (rand : ℕ → ℚ × ℚ) (failing : String → Bool) : EngineState :=
  (resolveLoopF s (s.trades.filter (isDuePending nowMs)) nowMs rand 0 failing).1

end TradeEngine

namespace TradeEngine

/-- On the win branch (`randomNumber < WIN_PERCENTAGE_SIMULATION`) the
simulation produces exactly the win record, with `finalAmount` in the
product form `W * (1 + f)`. -/
theorem computeSettlement_win (W P r p : ℚ)
    (hr : r < WIN_PERCENTAGE_SIMULATION) :
    computeSettlement W P r p =
      { outcome := Outcome.win
        gainPercentage :=
          (MIN_PROFIT_PERCENTAGE +
            p * (MAX_PROFIT_PERCENTAGE - MIN_PROFIT_PERCENTAGE)) * 100
        finalAmount := W * (1 + (MIN_PROFIT_PERCENTAGE +
            p * (MAX_PROFIT_PERCENTAGE - MIN_PROFIT_PERCENTAGE)))
        simulatedFinalPrice := P * (1 + (MIN_PROFIT_PERCENTAGE +
            p * (MAX_PROFIT_PERCENTAGE - MIN_PROFIT_PERCENTAGE))) } := by
  simp only [computeSettlement, if_pos hr, SettleResult.mk.injEq, true_and,
    and_true]
  ring

/-- On the loss branch the simulation produces exactly the loss record,
with `finalAmount` in the product form `W * (1 - l)`. -/
theorem computeSettlement_loss (W P r p : ℚ)
    (hr : ¬ r < WIN_PERCENTAGE_SIMULATION) :
    computeSettlement W P r p =
      { outcome := Outcome.loss
        gainPercentage :=
          -((MIN_LOSS_PERCENTAGE +
            p * (MAX_LOSS_PERCENTAGE - MIN_LOSS_PERCENTAGE)) * 100)
        finalAmount := W * (1 - (MIN_LOSS_PERCENTAGE +
            p * (MAX_LOSS_PERCENTAGE - MIN_LOSS_PERCENTAGE)))
        simulatedFinalPrice := P * (1 - (MIN_LOSS_PERCENTAGE +
            p * (MAX_LOSS_PERCENTAGE - MIN_LOSS_PERCENTAGE))) } := by
  simp only [computeSettlement, if_neg hr, SettleResult.mk.injEq, true_and,
    and_true]
  constructor <;> ring

/-- The profit fraction lands in `[MIN_PROFIT_PERCENTAGE, MAX_PROFIT_PERCENTAGE]`
for a branch draw `p ∈ [0, 1)`. -/
theorem profitFraction_bounds (p : ℚ) (hp0 : 0 ≤ p) (hp1 : p < 1) :
    MIN_PROFIT_PERCENTAGE ≤
        MIN_PROFIT_PERCENTAGE +
          p * (MAX_PROFIT_PERCENTAGE - MIN_PROFIT_PERCENTAGE) ∧
      MIN_PROFIT_PERCENTAGE +
          p * (MAX_PROFIT_PERCENTAGE - MIN_PROFIT_PERCENTAGE) ≤
        MAX_PROFIT_PERCENTAGE := by
  unfold MIN_PROFIT_PERCENTAGE MAX_PROFIT_PERCENTAGE
  constructor <;> nlinarith

/-- The loss fraction lands in `[MIN_LOSS_PERCENTAGE, MAX_LOSS_PERCENTAGE]`
for a branch draw `p ∈ [0, 1)`. -/
theorem lossFraction_bounds (p : ℚ) (hp0 : 0 ≤ p) (hp1 : p < 1) :
    MIN_LOSS_PERCENTAGE ≤
        MIN_LOSS_PERCENTAGE +
          p * (MAX_LOSS_PERCENTAGE - MIN_LOSS_PERCENTAGE) ∧
      MIN_LOSS_PERCENTAGE +
          p * (MAX_LOSS_PERCENTAGE - MIN_LOSS_PERCENTAGE) ≤
        MAX_LOSS_PERCENTAGE := by
  unfold MIN_LOSS_PERCENTAGE MAX_LOSS_PERCENTAGE
  constructor <;> nlinarith

/-- C1: for a settled trade the draw `r` decides the branch: if
`r < WIN_PERCENTAGE_SIMULATION` the outcome is a win with a profit
fraction `f = MIN_PROFIT + p * (MAX_PROFIT - MIN_PROFIT)` lying in
`[0.07, 0.19]`, `gainPercentage = f * 100`,
`finalAmount = amountWagered * (1 + f)`,
`simulatedFinalPrice = entryPrice * (1 + f)`; otherwise a loss with
fraction `l ∈ [0.01, 0.05]`, `gainPercentage = -(l * 100)`,
`finalAmount = amountWagered * (1 - l)`,
`simulatedFinalPrice = entryPrice * (1 - l)`; and the trade row is
rewritten to status `completed` with these fields together with the
mirrors `current_trade_value = finalAmount` and
`current_gain_loss_percentage = gainPercentage`. -/
theorem settlement_formulas (t : TradeRow) (r p : ℚ)
    (hp0 : 0 ≤ p) (hp1 : p < 1) :
    (r < WIN_PERCENTAGE_SIMULATION →
      ∃ f, f = MIN_PROFIT_PERCENTAGE +
          p * (MAX_PROFIT_PERCENTAGE - MIN_PROFIT_PERCENTAGE) ∧
        MIN_PROFIT_PERCENTAGE ≤ f ∧ f ≤ MAX_PROFIT_PERCENTAGE ∧
        settleRow t r p =
          { t with
            status := Status.completed
            outcome := some Outcome.win
            gain_percentage := some (f * 100)
            final_amount := some (t.amount * (1 + f))
            simulated_final_price := some (t.initial_price * (1 + f))
            current_trade_value := some (t.amount * (1 + f))
            current_gain_loss_percentage := some (f * 100) }) ∧
    (¬ r < WIN_PERCENTAGE_SIMULATION →
      ∃ l, l = MIN_LOSS_PERCENTAGE +
          p * (MAX_LOSS_PERCENTAGE - MIN_LOSS_PERCENTAGE) ∧
        MIN_LOSS_PERCENTAGE ≤ l ∧ l ≤ MAX_LOSS_PERCENTAGE ∧
        settleRow t r p =
          { t with
            status := Status.completed
            outcome := some Outcome.loss
            gain_percentage := some (-(l * 100))
            final_amount := some (t.amount * (1 - l))
            simulated_final_price := some (t.initial_price * (1 - l))
            current_trade_value := some (t.amount * (1 - l))
            current_gain_loss_percentage := some (-(l * 100)) }) ∧
    (∀ (s : EngineState) (nowMs : ℕ), t.delivery_time ≤ nowMs →
      (resolveTradeTx s t nowMs (r, p)).trades =
        s.trades.map (fun u =>
          if u.id == t.id then
            applySettlement u (computeSettlement t.amount t.initial_price r p)
          else u)) := by
  refine ⟨?_, ?_, fun s nowMs hd => by unfold resolveTradeTx; rw [if_pos hd]⟩
  · intro hr
    refine ⟨_, rfl, (profitFraction_bounds p hp0 hp1).1,
      (profitFraction_bounds p hp0 hp1).2, ?_⟩
    unfold settleRow applySettlement
    rw [computeSettlement_win t.amount t.initial_price r p hr]
  · intro hr
    refine ⟨_, rfl, (lossFraction_bounds p hp0 hp1).1,
      (lossFraction_bounds p hp0 hp1).2, ?_⟩
    unfold settleRow applySettlement
    rw [computeSettlement_loss t.amount t.initial_price r p hr]

/-- Witness for `settlement_formulas` at concrete draws. -/
theorem settlement_formulas_witness :
    (0:ℚ) ≤ 1/2 ∧ (1/2:ℚ) < 1 ∧
    ((1/2 : ℚ) < WIN_PERCENTAGE_SIMULATION →
      ∃ f, f = MIN_PROFIT_PERCENTAGE +
          (1/2) * (MAX_PROFIT_PERCENTAGE - MIN_PROFIT_PERCENTAGE) ∧
        MIN_PROFIT_PERCENTAGE ≤ f ∧ f ≤ MAX_PROFIT_PERCENTAGE ∧
        settleRow
          { id := "t1", user_id := "a1", crypto_id := "bitcoin",
            crypto_name := "Bitcoin", crypto_symbol := "BTC",
            order_type := OrderType.buy, direction := Direction.up,
            amount := 1000, initial_price := 30000, delivery_time := 5,
            status := Status.pending, timestamp := 1, email := none,
            gain_percentage := none, final_amount := none,
            simulated_final_price := none, current_trade_value := none,
            current_gain_loss_percentage := none, outcome := none }
          (1/2) (1/2) =
          { ({ id := "t1", user_id := "a1", crypto_id := "bitcoin",
               crypto_name := "Bitcoin", crypto_symbol := "BTC",
               order_type := OrderType.buy, direction := Direction.up,
               amount := 1000, initial_price := 30000, delivery_time := 5,
               status := Status.pending, timestamp := 1, email := none,
               gain_percentage := none, final_amount := none,
               simulated_final_price := none, current_trade_value := none,
               current_gain_loss_percentage := none,
               outcome := none } : TradeRow) with
            status := Status.completed
            outcome := some Outcome.win
            gain_percentage := some (f * 100)
            final_amount := some (1000 * (1 + f))
            simulated_final_price := some (30000 * (1 + f))
            current_trade_value := some (1000 * (1 + f))
            current_gain_loss_percentage := some (f * 100) }) :=
  ⟨by norm_num, by norm_num,
    (settlement_formulas _ (1/2) (1/2) (by norm_num) (by norm_num)).1⟩

end TradeEngine

namespace TradeEngine

/-- C4: for a settled trade with wager `W > 0`, a win pays strictly more
than `W` and at most `W * 1.19`, a loss pays at least `W * 0.95` and
strictly less than `W`, and in every case the payout is non-negative. -/
theorem finalAmount_conservation (W P r p : ℚ) (hW : 0 < W)
    (hp0 : 0 ≤ p) (hp1 : p < 1) :
    ((computeSettlement W P r p).outcome = Outcome.win →
      W < (computeSettlement W P r p).finalAmount ∧
        (computeSettlement W P r p).finalAmount ≤ W * (119 / 100)) ∧
    ((computeSettlement W P r p).outcome = Outcome.loss →
      W * (95 / 100) ≤ (computeSettlement W P r p).finalAmount ∧
        (computeSettlement W P r p).finalAmount < W) ∧
    0 ≤ (computeSettlement W P r p).finalAmount := by
  have hWp : 0 ≤ W * p := mul_nonneg hW.le hp0
  have hWp1 : W * p < W * 1 := mul_lt_mul_of_pos_left hp1 hW
  by_cases hr : r < WIN_PERCENTAGE_SIMULATION
  · rw [computeSettlement_win W P r p hr]
    unfold MIN_PROFIT_PERCENTAGE MAX_PROFIT_PERCENTAGE
    refine ⟨fun _ => ⟨by nlinarith, by nlinarith⟩,
      fun h => absurd h (by simp), by nlinarith⟩
  · rw [computeSettlement_loss W P r p hr]
    unfold MIN_LOSS_PERCENTAGE MAX_LOSS_PERCENTAGE
    refine ⟨fun h => absurd h (by simp),
      fun _ => ⟨by nlinarith, by nlinarith⟩, by nlinarith⟩

/-- Witness for `finalAmount_conservation` at a concrete wager and
concrete draws. -/
theorem finalAmount_conservation_witness :
    (0:ℚ) < 1000 ∧ (0:ℚ) ≤ 1/2 ∧ (1/2:ℚ) < 1 ∧
      0 ≤ (computeSettlement 1000 30000 0 (1/2)).finalAmount :=
  ⟨by norm_num, by norm_num, by norm_num,
    (finalAmount_conservation 1000 30000 0 (1/2) (by norm_num) (by norm_num)
      (by norm_num)).2.2⟩

/-- C9: the `direction` field has no influence on settlement — two
trades identical except for `direction`, settled with the same random
draws, receive identical outcome, gain percentage, final amount,
simulated final price and mirror fields. -/
theorem direction_noninterference (t : TradeRow) (d : Direction) (r p : ℚ) :
    (settleRow { t with direction := d } r p).outcome =
        (settleRow t r p).outcome ∧
      (settleRow { t with direction := d } r p).gain_percentage =
        (settleRow t r p).gain_percentage ∧
      (settleRow { t with direction := d } r p).final_amount =
        (settleRow t r p).final_amount ∧
      (settleRow { t with direction := d } r p).simulated_final_price =
        (settleRow t r p).simulated_final_price ∧
      (settleRow { t with direction := d } r p).current_trade_value =
        (settleRow t r p).current_trade_value ∧
      (settleRow { t with direction := d } r p).current_gain_loss_percentage =
        (settleRow t r p).current_gain_loss_percentage :=
  ⟨rfl, rfl, rfl, rfl, rfl, rfl⟩

/-- The simulation never leaves the declared default `'draw'`: both
branches overwrite it with `'win'` or `'loss'`. -/
theorem computeSettlement_outcome_win_or_loss (W P r p : ℚ) :
    (computeSettlement W P r p).outcome = Outcome.win ∨
      (computeSettlement W P r p).outcome = Outcome.loss := by
  by_cases hr : r < WIN_PERCENTAGE_SIMULATION
  · left; rw [computeSettlement_win W P r p hr]
  · right; rw [computeSettlement_loss W P r p hr]

/-- Characterisation of the rows present after one per-trade
transaction: each is a pre-existing row, or a pre-existing row with the
settlement fields written. -/
theorem mem_trades_resolveTradeTx {s : EngineState} {trade : TradeRow}
    {nowMs : ℕ} {rp : ℚ × ℚ} {row : TradeRow}
    (h : row ∈ (resolveTradeTx s trade nowMs rp).trades) :
    row ∈ s.trades ∨
      ∃ u, u ∈ s.trades ∧
        row = applySettlement u
          (computeSettlement trade.amount trade.initial_price rp.1 rp.2) := by
  unfold resolveTradeTx at h
  by_cases hd : trade.delivery_time ≤ nowMs
  · rw [if_pos hd] at h
    simp only [List.mem_map] at h
    obtain ⟨u, hu, hrow⟩ := h
    by_cases hid : u.id = trade.id
    · right
      refine ⟨u, hu, ?_⟩
      rw [← hrow]
      simp [hid]
    · left
      rw [← hrow, if_neg (by simp [hid])]
      exact hu
  · rw [if_neg hd] at h
    exact Or.inl h

end TradeEngine

namespace TradeEngine

/-- Unfolding equation of `resolveLoop` on the empty batch. -/
theorem resolveLoop_nil (s : EngineState) (nowMs : ℕ) (rand : ℕ → ℚ × ℚ)
    (i : ℕ) : resolveLoop s [] nowMs rand i = (s, 0) := rfl

/-- Unfolding equation of `resolveLoop` on a non-empty batch. -/
theorem resolveLoop_cons (s : EngineState) (t : TradeRow)
    (rest : List TradeRow) (nowMs : ℕ) (rand : ℕ → ℚ × ℚ) (i : ℕ) :
    resolveLoop s (t :: rest) nowMs rand i =
      if t.delivery_time ≤ nowMs then
        ((resolveLoop (resolveTradeTx s t nowMs (rand i)) rest nowMs rand
            (i + 1)).1,
          (resolveLoop (resolveTradeTx s t nowMs (rand i)) rest nowMs rand
            (i + 1)).2 + 1)
      else
        resolveLoop s rest nowMs rand i := rfl

/-- Every row present after the resolution loop is a pre-existing row or
carries a `'win'`/`'loss'` outcome. -/
theorem outcome_of_mem_resolveLoop {l : List TradeRow} {s : EngineState}
    {nowMs : ℕ} {rand : ℕ → ℚ × ℚ} {i : ℕ} {row : TradeRow}
    (h : row ∈ (resolveLoop s l nowMs rand i).1.trades) :
    row ∈ s.trades ∨ row.outcome = some Outcome.win ∨
      row.outcome = some Outcome.loss := by
  induction l generalizing s i with
  | nil =>
    rw [resolveLoop_nil] at h
    exact Or.inl h
  | cons t rest ih =>
    rw [resolveLoop_cons] at h
    by_cases hd : t.delivery_time ≤ nowMs
    · rw [if_pos hd] at h
      rcases ih h with hmem | hout
      · rcases mem_trades_resolveTradeTx hmem with h1 | ⟨u, hu, hru⟩
        · exact Or.inl h1
        · right
          rw [hru]
          rcases computeSettlement_outcome_win_or_loss t.amount
            t.initial_price (rand i).1 (rand i).2 with hw | hl
          · left
            simp [applySettlement, hw]
          · right
            simp [applySettlement, hl]
      · exact Or.inr hout
    · rw [if_neg hd] at h
      exact ih h

/-- C10: `resolvePendingTrades` never records a `'draw'` and never a
null outcome — every row of the store it touched (any row not already
present before the sweep) carries outcome `'win'` or `'loss'`, even
though `'draw'` is the declared default of the settlement routine. -/
theorem resolve_never_records_draw (s : EngineState) (nowMs : ℕ)
    (rand : ℕ → ℚ × ℚ) (row : TradeRow)
    (hrow : row ∈ (resolvePendingTrades s nowMs rand).1.trades) :
    row ∈ s.trades ∨ row.outcome = some Outcome.win ∨
      row.outcome = some Outcome.loss := by
  unfold resolvePendingTrades at hrow
  exact outcome_of_mem_resolveLoop hrow

/-- A concrete pending trade due at time 5, used for closed witnesses. -/
def sampleTrade : TradeRow :=
  { id := "t1", user_id := "a1", crypto_id := "bitcoin",
    crypto_name := "Bitcoin", crypto_symbol := "BTC",
    order_type := OrderType.buy, direction := Direction.up,
    amount := 1000, initial_price := 30000, delivery_time := 5,
    status := Status.pending, timestamp := 1, email := none,
    gain_percentage := none, final_amount := none,
    simulated_final_price := none, current_trade_value := none,
    current_gain_loss_percentage := none, outcome := none }

/-- A concrete account owning `sampleTrade`. -/
def sampleAccount : AccountRow := { id := "a1", balance := 9000 }

/-- A concrete store holding `sampleAccount` and `sampleTrade`. -/
def sampleState : EngineState :=
  { accounts := [sampleAccount], trades := [sampleTrade] }

/-- A concrete random stream: outcome draw 0 (a win) and branch draw
1/2 for every trade. -/
def sampleRand : ℕ → ℚ × ℚ := fun _ => (0, 1/2)

/-- Evaluation of the sweep on the concrete sample store: the single
due pending trade is settled with the first pair of draws and the
account is credited its `finalAmount`. -/
theorem sample_sweep_eq :
    resolvePendingTrades sampleState 5 sampleRand =
      ({ accounts := [AccountRow.mk "a1" (sampleAccount.balance +
            (computeSettlement sampleTrade.amount sampleTrade.initial_price
              0 (1/2)).finalAmount)]
         trades := [settleRow sampleTrade 0 (1/2)] }, 1) := by
  simp [resolvePendingTrades, resolveLoop, resolveTradeTx, creditAccount,
    settleRow, isDuePending, sampleState, sampleRand, sampleTrade,
    sampleAccount]

/-- Witness for `resolve_never_records_draw`: the settled sample trade. -/
theorem resolve_never_records_draw_witness :
    settleRow sampleTrade 0 (1/2) ∈
        (resolvePendingTrades sampleState 5 sampleRand).1.trades ∧
      (settleRow sampleTrade 0 (1/2) ∈ sampleState.trades ∨
        (settleRow sampleTrade 0 (1/2)).outcome = some Outcome.win ∨
        (settleRow sampleTrade 0 (1/2)).outcome = some Outcome.loss) :=
  ⟨by simp [sample_sweep_eq], resolve_never_records_draw sampleState 5
    sampleRand _ (by simp [sample_sweep_eq])⟩

end TradeEngine

namespace TradeEngine

/-- C3: `POST /api/trades` fails with `InsufficientBalance` whenever the
resolved account's balance is smaller than the wager, and with
`AccountNotFound` whenever the account id does not resolve; in both
cases the store (balances and trades) is returned unchanged. -/
theorem createTrade_error_paths (s : EngineState) (v : InsertTrade) :
    (∀ a, s.accounts.find? (fun x => x.id == v.userId) = some a →
        a.balance < v.amount →
        createTrade s v = (Except.error CreateError.insufficientBalance, s)) ∧
      (s.accounts.find? (fun x => x.id == v.userId) = none →
        createTrade s v = (Except.error CreateError.accountNotFound, s)) := by
  constructor
  · intro a ha hlt
    unfold createTrade
    simp only [ha]
    rw [if_pos hlt]
  · intro hn
    unfold createTrade
    simp only [hn]

/-- A request whose wager exceeds the sample account's balance. -/
def sampleRequest : InsertTrade :=
  { id := "t2", userId := "a1", cryptoId := "bitcoin",
    cryptoName := "Bitcoin", cryptoSymbol := "BTC",
    order_type := OrderType.buy, direction := Direction.up,
    amount := 1000000, entryPrice := 30000, deliveryTime := 9,
    status := Status.pending, timestamp := 2, email := none,
    gainPercentage := none, finalAmount := none,
    simulatedFinalPrice := none, currentTradeValue := none,
    currentGainLossPercentage := none, outcome := none }

/-- The same request issued for an account id that does not resolve. -/
def strangerRequest : InsertTrade := { sampleRequest with userId := "nobody" }

/-- Witness for `createTrade_error_paths` on the concrete store. -/
theorem createTrade_error_paths_witness :
    sampleState.accounts.find? (fun x => x.id == sampleRequest.userId) =
        some sampleAccount ∧
      sampleAccount.balance < sampleRequest.amount ∧
      createTrade sampleState sampleRequest =
        (Except.error CreateError.insufficientBalance, sampleState) ∧
      sampleState.accounts.find? (fun x => x.id == strangerRequest.userId) =
        none ∧
      createTrade sampleState strangerRequest =
        (Except.error CreateError.accountNotFound, sampleState) := by
  have hfind : sampleState.accounts.find?
      (fun x => x.id == sampleRequest.userId) = some sampleAccount := rfl
  have hlt : sampleAccount.balance < sampleRequest.amount := by
    norm_num [sampleAccount, sampleRequest]
  have hnone : sampleState.accounts.find?
      (fun x => x.id == strangerRequest.userId) = none := rfl
  exact ⟨hfind, hlt,
    (createTrade_error_paths sampleState sampleRequest).1 sampleAccount
      hfind hlt,
    hnone, (createTrade_error_paths sampleState strangerRequest).2 hnone⟩

/-- A request accepted by `insertTradeSchema` that already carries
`status = 'completed'`, an outcome and settlement values. -/
def forgedRequest : InsertTrade :=
  { id := "t9", userId := "a1", cryptoId := "bitcoin",
    cryptoName := "Bitcoin", cryptoSymbol := "BTC",
    order_type := OrderType.buy, direction := Direction.up, amount := 100,
    entryPrice := 30000, deliveryTime := 9, status := Status.completed,
    timestamp := 2, email := none, gainPercentage := some 10,
    finalAmount := some 110, simulatedFinalPrice := some 33000,
    currentTradeValue := some 110, currentGainLossPercentage := some 10,
    outcome := some Outcome.win }

/-- C6 counterexample: `POST /api/trades` copies the client-supplied
`status`, `outcome` and settlement fields into the stored row, so an
accepted request carrying `status = 'completed'` and `outcome = 'win'`
is NOT stored as a pending trade with null settlement fields. -/
theorem createTrade_forged_request_cex :
    (createTrade sampleState forgedRequest).1 = Except.ok () ∧
      (createTrade sampleState forgedRequest).2.trades =
        [sampleTrade, tradeToInsert forgedRequest] ∧
      (tradeToInsert forgedRequest).status = Status.completed ∧
      (tradeToInsert forgedRequest).outcome = some Outcome.win ∧
      (tradeToInsert forgedRequest).gain_percentage = some 10 ∧
      (tradeToInsert forgedRequest).final_amount = some 110 ∧
      (tradeToInsert forgedRequest).simulated_final_price = some 33000 ∧
      (tradeToInsert forgedRequest).current_trade_value = some 110 ∧
      (tradeToInsert forgedRequest).current_gain_loss_percentage =
        some 10 := by
  have h : createTrade sampleState forgedRequest =
      (Except.ok (), EngineState.mk
        [AccountRow.mk "a1" (sampleAccount.balance - forgedRequest.amount)]
        [sampleTrade, tradeToInsert forgedRequest]) := by
    norm_num [createTrade, sampleState, sampleAccount, forgedRequest]
  refine ⟨?_, ?_, rfl, rfl, rfl, rfl, rfl, rfl, rfl⟩
  · rw [h]
  · rw [h]

/-- C6 amended: the stored row's `status`, `outcome` and settlement
fields are copied from the validated request (with zod defaulting
`status` to `'pending'`): a successful create whose request carries
`status = 'pending'` and null optional fields stores the trade with
status `pending`, outcome null and all settlement fields null
(`current_trade_value` is populated from the request's `finalAmount`,
hence also null). -/
theorem createTrade_pending_insert (s : EngineState) (v : InsertTrade)
    (hstatus : v.status = Status.pending) (houtcome : v.outcome = none)
    (hg : v.gainPercentage = none) (hf : v.finalAmount = none)
    (hsp : v.simulatedFinalPrice = none)
    (hc : v.currentGainLossPercentage = none)
    (hok : (createTrade s v).1 = Except.ok ()) :
    (createTrade s v).2.trades = s.trades ++ [tradeToInsert v] ∧
      (tradeToInsert v).status = Status.pending ∧
      (tradeToInsert v).outcome = none ∧
      (tradeToInsert v).gain_percentage = none ∧
      (tradeToInsert v).final_amount = none ∧
      (tradeToInsert v).simulated_final_price = none ∧
      (tradeToInsert v).current_trade_value = none ∧
      (tradeToInsert v).current_gain_loss_percentage = none := by
  refine ⟨?_, hstatus, houtcome, hg, hf, hsp, hf, hc⟩
  unfold createTrade at hok ⊢
  cases hfind : s.accounts.find? (fun a => a.id == v.userId) with
  | none =>
      rw [hfind] at hok
      exact absurd hok (by simp)
  | some acct =>
      simp only [hfind] at hok ⊢
      by_cases hlt : acct.balance < v.amount
      · rw [if_pos hlt] at hok
        exact absurd hok (by simp)
      · rw [if_neg hlt]

/-- An honest request: default status, no outcome, no settlement
fields. -/
def honestRequest : InsertTrade :=
  { forgedRequest with
    id := "t3"
    status := Status.pending
    gainPercentage := none
    finalAmount := none
    simulatedFinalPrice := none
    currentTradeValue := none
    currentGainLossPercentage := none
    outcome := none }

/-- Witness for `createTrade_pending_insert` on the concrete store. -/
theorem createTrade_pending_insert_witness :
    (createTrade sampleState honestRequest).1 = Except.ok () ∧
      ((createTrade sampleState honestRequest).2.trades =
          sampleState.trades ++ [tradeToInsert honestRequest] ∧
        (tradeToInsert honestRequest).status = Status.pending ∧
        (tradeToInsert honestRequest).outcome = none ∧
        (tradeToInsert honestRequest).gain_percentage = none ∧
        (tradeToInsert honestRequest).final_amount = none ∧
        (tradeToInsert honestRequest).simulated_final_price = none ∧
        (tradeToInsert honestRequest).current_trade_value = none ∧
        (tradeToInsert honestRequest).current_gain_loss_percentage =
          none) := by
  have hok : (createTrade sampleState honestRequest).1 = Except.ok () := by
    norm_num [createTrade, sampleState, sampleAccount, honestRequest,
      forgedRequest]
  exact ⟨hok, createTrade_pending_insert sampleState honestRequest rfl rfl
    rfl rfl rfl rfl hok⟩

end TradeEngine

namespace TradeEngine

/-- The trades written by one due per-trade transaction: every row whose
id matches the captured row is rewritten with the captured row's
settlement. -/
theorem resolveTradeTx_trades_of_due {trade : TradeRow} {nowMs : ℕ}
    (s : EngineState) (rp : ℚ × ℚ) (hd : trade.delivery_time ≤ nowMs) :
    (resolveTradeTx s trade nowMs rp).trades =
      s.trades.map (fun t =>
        if t.id == trade.id then
          applySettlement t
            (computeSettlement trade.amount trade.initial_price rp.1 rp.2)
        else t) := by
  unfold resolveTradeTx
  rw [if_pos hd]

/-- The accounts written by one due per-trade transaction. -/
theorem resolveTradeTx_accounts_of_due {trade : TradeRow} {nowMs : ℕ}
    (s : EngineState) (rp : ℚ × ℚ) (hd : trade.delivery_time ≤ nowMs) :
    (resolveTradeTx s trade nowMs rp).accounts =
      creditAccount s.accounts trade.user_id
        (computeSettlement trade.amount trade.initial_price rp.1
          rp.2).finalAmount := by
  unfold resolveTradeTx
  rw [if_pos hd]

/-- The sample trade after it has already been marked completed. -/
def sampleTradeCompleted : TradeRow :=
  { sampleTrade with status := Status.completed }

/-- A store in which the trade is already completed, while a sweep still
holds the stale pending row it captured before. -/
def staleState : EngineState :=
  { accounts := [sampleAccount], trades := [sampleTradeCompleted] }

/-- C5 counterexample: the per-trade transaction does NOT re-read the
trade's status — applied to a stale captured row of a trade whose
stored status is already `'completed'`, it re-settles the trade and
credits the balance again instead of skipping it, so the claimed
in-transaction idempotency guard is absent. -/
theorem resolveTradeTx_no_status_guard_cex :
    staleState.trades.map TradeRow.status = [Status.completed] ∧
      resolveTradeTx staleState sampleTrade 5 (0, 1/2) ≠ staleState := by
  refine ⟨rfl, ?_⟩
  intro h
  have h2 := congrArg (fun st => st.accounts) h
  norm_num [resolveTradeTx, creditAccount, staleState, sampleTrade,
    sampleAccount, sampleTradeCompleted, computeSettlement, applySettlement,
    WIN_PERCENTAGE_SIMULATION, MIN_PROFIT_PERCENTAGE,
    MAX_PROFIT_PERCENTAGE] at h2

/-- A row whose id differs from every id in the batch survives the
resolution loop verbatim, and the loop never adds or removes rows. -/
theorem resolveLoop_preserves_row {l : List TradeRow} {s : EngineState}
    {nowMs : ℕ} {rand : ℕ → ℚ × ℚ} {i : ℕ} {row : TradeRow}
    (hrow : row ∈ s.trades) (hid : ∀ t ∈ l, row.id ≠ t.id) :
    row ∈ (resolveLoop s l nowMs rand i).1.trades ∧
      (resolveLoop s l nowMs rand i).1.trades.length =
        s.trades.length := by
  induction l generalizing s i with
  | nil =>
    rw [resolveLoop_nil]
    exact ⟨hrow, rfl⟩
  | cons t rest ih =>
    rw [resolveLoop_cons]
    by_cases hd : t.delivery_time ≤ nowMs
    · rw [if_pos hd]
      have hids : ∀ u ∈ rest, row.id ≠ u.id :=
        fun u hu => hid u (List.mem_cons_of_mem t hu)
      have hne : (row.id == t.id) = false :=
        beq_eq_false_iff_ne.mpr (hid t (List.mem_cons_self t rest))
      have hrow' : row ∈ (resolveTradeTx s t nowMs (rand i)).trades := by
        rw [resolveTradeTx_trades_of_due s (rand i) hd]
        have := List.mem_map_of_mem (fun u =>
          if u.id == t.id then
            applySettlement u
              (computeSettlement t.amount t.initial_price (rand i).1
                (rand i).2)
          else u) hrow
        simpa [hne] using this
      have hlen : (resolveTradeTx s t nowMs (rand i)).trades.length =
          s.trades.length := by
        rw [resolveTradeTx_trades_of_due s (rand i) hd, List.length_map]
      obtain ⟨h1, h2⟩ := ih hrow' hids
      exact ⟨h1, by rw [h2, hlen]⟩
    · rw [if_neg hd]
      exact ih hrow (fun u hu => hid u (List.mem_cons_of_mem t hu))

/-- Membership in the due-pending filter forces status `pending`. -/
theorem status_of_isDuePending {nowMs : ℕ} {t : TradeRow}
    (h : isDuePending nowMs t = true) :
    t.status = Status.pending ∧ t.delivery_time ≤ nowMs := by
  unfold isDuePending at h
  rcases Bool.and_eq_true_iff.mp h with ⟨h1, h2⟩
  exact ⟨beq_iff_eq.mp h1, by simpa using h2⟩

/-- C5 amended: the engine's operations only ever move a trade from
`pending` to `completed`, never the reverse: with unique trade ids, a
row already `completed` survives any sweep verbatim (it is excluded by
the due query's status filter, and no per-trade transaction in the
sweep touches its id), and the sweep neither adds nor removes rows.
The protection against re-settlement is the sweep-start status filter
only: the per-trade transaction re-checks the delivery deadline but
does NOT re-read the status inside the transaction (see the
counterexample). -/
theorem completed_rows_survive_sweep (s : EngineState) (nowMs : ℕ)
    (rand : ℕ → ℚ × ℚ) (hnodup : (s.trades.map TradeRow.id).Nodup)
    (row : TradeRow) (hrow : row ∈ s.trades)
    (hc : row.status = Status.completed) :
    row ∈ (resolvePendingTrades s nowMs rand).1.trades ∧
      (resolvePendingTrades s nowMs rand).1.trades.length =
        s.trades.length := by
  unfold resolvePendingTrades
  apply resolveLoop_preserves_row hrow
  intro t ht heq
  have hmem := List.mem_filter.mp ht
  have hpend := (status_of_isDuePending hmem.2).1
  have : row = t :=
    List.inj_on_of_nodup_map hnodup hrow hmem.1 heq
  rw [this, hpend] at hc
  exact Status.noConfusion hc

/-- Witness for `completed_rows_survive_sweep` on the store holding one
completed trade. -/
theorem completed_rows_survive_sweep_witness :
    (staleState.trades.map TradeRow.id).Nodup ∧
      sampleTradeCompleted ∈ staleState.trades ∧
      sampleTradeCompleted.status = Status.completed ∧
      (sampleTradeCompleted ∈
          (resolvePendingTrades staleState 5 sampleRand).1.trades ∧
        (resolvePendingTrades staleState 5 sampleRand).1.trades.length =
          staleState.trades.length) :=
  ⟨by decide, List.mem_singleton_self _, rfl,
    completed_rows_survive_sweep staleState 5 sampleRand (by decide)
      sampleTradeCompleted (List.mem_singleton_self _) rfl⟩

end TradeEngine

namespace TradeEngine

/-- Unfolding equation of `resolveLoopF` on the empty batch. -/
theorem resolveLoopF_nil (s : EngineState) (nowMs : ℕ) (rand : ℕ → ℚ × ℚ)
    (i : ℕ) (failing : String → Bool) :
    resolveLoopF s [] nowMs rand i failing = (s, false) := rfl

/-- Unfolding equation of `resolveLoopF` on a non-empty batch. -/
theorem resolveLoopF_cons (s : EngineState) (t : TradeRow)
    (rest : List TradeRow) (nowMs : ℕ) (rand : ℕ → ℚ × ℚ) (i : ℕ)
    (failing : String → Bool) :
    resolveLoopF s (t :: rest) nowMs rand i failing =
      if failing t.id then (s, true)
      else if t.delivery_time ≤ nowMs then
        resolveLoopF (resolveTradeTx s t nowMs (rand i)) rest nowMs rand
          (i + 1) failing
      else
        resolveLoopF s rest nowMs rand i failing := rfl

/-- A second pending trade due at the same time, owned by the same
account. -/
def sampleTradeB : TradeRow := { sampleTrade with id := "t2" }

/-- A store with two due pending trades. -/
def twoTradeState : EngineState :=
  { accounts := [sampleAccount], trades := [sampleTrade, sampleTradeB] }

/-- A failure oracle: the transaction of trade `"t1"` throws. -/
def failFirst : String → Bool := fun tid => tid == "t1"

/-- C7 counterexample: the `catch` of `resolvePendingTrades` wraps the
whole `for` loop, so a failure in the first trade's transaction aborts
the processing of the remaining due trades of the same sweep — trade
`"t2"` is due and not failing, yet the sweep leaves the store untouched
and `"t2"` stays pending. -/
theorem resolve_failure_aborts_sweep_cex :
    failFirst sampleTradeB.id = false ∧
      isDuePending 5 sampleTradeB = true ∧
      resolvePendingTradesF twoTradeState 5 sampleRand failFirst =
        twoTradeState ∧
      sampleTradeB.status = Status.pending :=
  ⟨rfl, rfl, rfl, rfl⟩

/-- When the first failure sits after a failure-free due prefix, the
loop settles exactly that prefix and stops: the exception propagates
out of the `for` loop (rolling back only the failing transaction) and
is caught at the sweep boundary. -/
theorem resolveLoopF_abort {nowMs : ℕ} {rand : ℕ → ℚ × ℚ}
    {failing : String → Bool} :
    ∀ (l1 : List TradeRow) (t : TradeRow) (l2 : List TradeRow)
      (s : EngineState) (i : ℕ),
      (∀ u ∈ l1, failing u.id = false) → failing t.id = true →
      (∀ u ∈ l1, u.delivery_time ≤ nowMs) →
      resolveLoopF s (l1 ++ t :: l2) nowMs rand i failing =
        ((resolveLoop s l1 nowMs rand i).1, true) := by
  intro l1
  induction l1 with
  | nil =>
    intro t l2 s i _ hfail _
    rw [List.nil_append, resolveLoopF_cons, if_pos hfail, resolveLoop_nil]
  | cons u rest ih =>
    intro t l2 s i hok hfail hdue
    have hu : failing u.id = false := hok u (List.mem_cons_self u rest)
    have hd : u.delivery_time ≤ nowMs := hdue u (List.mem_cons_self u rest)
    rw [List.cons_append, resolveLoopF_cons,
      if_neg (by rw [hu]; exact Bool.false_ne_true), if_pos hd,
      resolveLoop_cons, if_pos hd]
    exact ih t l2 (resolveTradeTx s u nowMs (rand i)) (i + 1)
      (fun x hx => hok x (List.mem_cons_of_mem u hx)) hfail
      (fun x hx => hdue x (List.mem_cons_of_mem u hx))

/-- C7 amended: a failure raised while settling one due trade is caught
at the sweep boundary — `resolvePendingTrades` returns normally and
never throws for per-trade failures — but the catch wraps the whole
loop, so the failure DOES abort the processing of the remaining due
trades of that sweep: the store ends exactly as if only the
failure-free prefix of the due batch had been settled; the failing
trade's own transaction is rolled back and it and all later due trades
stay pending until a later sweep. -/
theorem resolve_failure_caught_at_sweep_boundary (s : EngineState)
    (nowMs : ℕ) (rand : ℕ → ℚ × ℚ) (failing : String → Bool)
    (l1 : List TradeRow) (t : TradeRow) (l2 : List TradeRow)
    (hsplit : s.trades.filter (isDuePending nowMs) = l1 ++ t :: l2)
    (hok : ∀ u ∈ l1, failing u.id = false)
    (hfail : failing t.id = true) :
    resolvePendingTradesF s nowMs rand failing =
      (resolveLoop s l1 nowMs rand 0).1 := by
  have hdue : ∀ u ∈ l1, u.delivery_time ≤ nowMs := by
    intro u hu
    have : u ∈ s.trades.filter (isDuePending nowMs) := by
      rw [hsplit]
      exact List.mem_append_left _ hu
    exact (status_of_isDuePending (List.mem_filter.mp this).2).2
  unfold resolvePendingTradesF
  rw [hsplit, resolveLoopF_abort l1 t l2 s 0 hok hfail hdue]

/-- Witness for `resolve_failure_caught_at_sweep_boundary`: the failure
hits the first due trade, so nothing is settled. -/
theorem resolve_failure_caught_witness :
    twoTradeState.trades.filter (isDuePending 5) =
        [] ++ sampleTrade :: [sampleTradeB] ∧
      failFirst sampleTrade.id = true ∧
      resolvePendingTradesF twoTradeState 5 sampleRand failFirst =
        (resolveLoop twoTradeState [] 5 sampleRand 0).1 :=
  ⟨rfl, rfl,
    resolve_failure_caught_at_sweep_boundary twoTradeState 5 sampleRand
      failFirst [] sampleTrade [sampleTradeB] rfl (by intro u hu; cases hu)
      rfl⟩

end TradeEngine

namespace TradeEngine

/-- The loop settles (and counts) every trade of a batch whose deadline
has passed. -/
theorem resolveLoop_count {nowMs : ℕ} {rand : ℕ → ℚ × ℚ} :
    ∀ (l : List TradeRow) (s : EngineState) (i : ℕ),
      (∀ t ∈ l, t.delivery_time ≤ nowMs) →
      (resolveLoop s l nowMs rand i).2 = l.length := by
  intro l
  induction l with
  | nil =>
    intro s i _
    rw [resolveLoop_nil]
    rfl
  | cons t rest ih =>
    intro s i hdue
    rw [resolveLoop_cons, if_pos (hdue t (List.mem_cons_self t rest))]
    show (resolveLoop (resolveTradeTx s t nowMs (rand i)) rest nowMs rand
      (i + 1)).2 + 1 = (t :: rest).length
    rw [ih (resolveTradeTx s t nowMs (rand i)) (i + 1)
      (fun u hu => hdue u (List.mem_cons_of_mem t hu))]
    rfl

/-- After the loop has processed a batch that covers (by id) every
due-pending row of the store, no due-pending row remains. -/
theorem resolveLoop_clears {nowMs : ℕ} {rand : ℕ → ℚ × ℚ} :
    ∀ (l : List TradeRow) (s : EngineState) (i : ℕ),
      (∀ row ∈ s.trades, isDuePending nowMs row = true →
        row.id ∈ l.map TradeRow.id) →
      (∀ t ∈ l, t.delivery_time ≤ nowMs) →
      ∀ row ∈ (resolveLoop s l nowMs rand i).1.trades,
        isDuePending nowMs row = false := by
  intro l
  induction l with
  | nil =>
    intro s i hcov _ row hrow
    rw [resolveLoop_nil] at hrow
    cases hb : isDuePending nowMs row with
    | false => rfl
    | true => exact absurd (hcov row hrow hb) (by simp)
  | cons t rest ih =>
    intro s i hcov hdue row hrow
    rw [resolveLoop_cons,
      if_pos (hdue t (List.mem_cons_self t rest))] at hrow
    refine ih (resolveTradeTx s t nowMs (rand i)) (i + 1) ?_
      (fun u hu => hdue u (List.mem_cons_of_mem t hu)) row hrow
    intro r hr hrd
    rw [resolveTradeTx_trades_of_due s (rand i)
      (hdue t (List.mem_cons_self t rest))] at hr
    obtain ⟨u, hu, hru⟩ := List.mem_map.mp hr
    by_cases hid : u.id = t.id
    · exfalso
      rw [← hru] at hrd
      simp [hid, isDuePending, applySettlement] at hrd
    · have hru2 : r = u := by rw [← hru]; simp [hid]
      have hmem : r ∈ s.trades := hru2 ▸ hu
      have hidmem := hcov r hmem hrd
      simp only [List.map_cons, List.mem_cons] at hidmem
      rcases hidmem with h1 | h2
      · exfalso
        rw [hru2] at h1
        exact hid h1
      · exact h2

/-- C8: the number of trades resolved by one sweep equals the number of
rows with status `pending` and `delivery_time ≤ now` at call time, and
a second sweep at the same instant resolves zero trades. -/
theorem resolve_idempotent (s : EngineState) (nowMs : ℕ)
    (rand1 rand2 : ℕ → ℚ × ℚ) :
    (resolvePendingTrades s nowMs rand1).2 =
        (s.trades.filter (isDuePending nowMs)).length ∧
      (resolvePendingTrades (resolvePendingTrades s nowMs rand1).1 nowMs
          rand2).2 = 0 := by
  constructor
  · unfold resolvePendingTrades
    apply resolveLoop_count
    intro t ht
    exact (status_of_isDuePending (List.mem_filter.mp ht).2).2
  · have hclear : ∀ row ∈ (resolvePendingTrades s nowMs rand1).1.trades,
        isDuePending nowMs row = false := by
      unfold resolvePendingTrades
      apply resolveLoop_clears
      · intro row hrow hdue
        exact List.mem_map_of_mem TradeRow.id
          (List.mem_filter.mpr ⟨hrow, hdue⟩)
      · intro t ht
        exact (status_of_isDuePending (List.mem_filter.mp ht).2).2
    have hfilter : (resolvePendingTrades s nowMs rand1).1.trades.filter
        (isDuePending nowMs) = [] := by
      apply List.filter_eq_nil_iff.mpr
      intro a ha
      rw [hclear a ha]
      exact Bool.false_ne_true
    show (resolveLoop (resolvePendingTrades s nowMs rand1).1
        ((resolvePendingTrades s nowMs rand1).1.trades.filter
          (isDuePending nowMs)) nowMs rand2 0).2 = 0
    rw [hfilter, resolveLoop_nil]

end TradeEngine

namespace TradeEngine

/-- Updating the balance of every account row matching `uid` commutes
with looking the account up by `uid`. -/
theorem find?_balance_update (accs : List AccountRow) (uid : String)
    (c : ℚ) :
    (accs.map (fun x =>
        if x.id == uid then { x with balance := c } else x)).find?
        (fun x => x.id == uid) =
      (accs.find? (fun x => x.id == uid)).map
        (fun x => { x with balance := c }) := by
  induction accs with
  | nil => rfl
  | cons a tl ih =>
    by_cases hid : a.id = uid
    · have hpa : (a.id == uid) = true := by simp [hid]
      have hmap : (a :: tl).map (fun x =>
          if x.id == uid then { x with balance := c } else x) =
          { a with balance := c } :: tl.map (fun x =>
            if x.id == uid then { x with balance := c } else x) := by
        simp only [List.map_cons]
        rw [if_pos hpa]
      have h1 : ({ a with balance := c } :: tl.map (fun x =>
          if x.id == uid then { x with balance := c } else x)).find?
          (fun x => x.id == uid) = some { a with balance := c } := by
        apply List.find?_cons_of_pos
        simp [hid]
      have h2 : (a :: tl).find? (fun x => x.id == uid) = some a := by
        apply List.find?_cons_of_pos
        exact hpa
      rw [hmap, h1, h2]
      rfl
    · have hpa : ¬((a.id == uid) = true) := by simp [hid]
      have hmap : (a :: tl).map (fun x =>
          if x.id == uid then { x with balance := c } else x) =
          a :: tl.map (fun x =>
            if x.id == uid then { x with balance := c } else x) := by
        simp only [List.map_cons]
        rw [if_neg hpa]
      have h1 : (a :: tl.map (fun x =>
          if x.id == uid then { x with balance := c } else x)).find?
          (fun x => x.id == uid) =
          (tl.map (fun x =>
            if x.id == uid then { x with balance := c } else x)).find?
            (fun x => x.id == uid) := by
        apply List.find?_cons_of_neg
        exact hpa
      have h2 : (a :: tl).find? (fun x => x.id == uid) =
          tl.find? (fun x => x.id == uid) := by
        apply List.find?_cons_of_neg
        exact hpa
      rw [hmap, h1, ih, h2]

/-- When the owning account is found, `creditAccount` is the balance
update by the found balance plus the credit. -/
theorem creditAccount_found (accs : List AccountRow) (uid : String)
    (amt : ℚ) (a : AccountRow)
    (h : accs.find? (fun x => x.id == uid) = some a) :
    creditAccount accs uid amt =
      accs.map (fun x =>
        if x.id == uid then { x with balance := a.balance + amt }
        else x) := by
  unfold creditAccount
  rw [h]

/-- C2: balance conservation across create then resolve with no other
activity on the account: starting from balance `B = a.balance` with
wager `W = v.amount ≤ B`, creation succeeds and debits the balance to
`B - W` atomically with the row insert, and the sweep that settles the
trade credits exactly `finalAmount`, leaving `B - W + finalAmount`. -/
theorem balance_conservation_create_resolve (s : EngineState)
    (v : InsertTrade) (a : AccountRow) (nowMs : ℕ) (rand : ℕ → ℚ × ℚ)
    (hfind : s.accounts.find? (fun x => x.id == v.userId) = some a)
    (hW : v.amount ≤ a.balance)
    (hstatus : v.status = Status.pending)
    (hdue : v.deliveryTime ≤ nowMs)
    (hquiet : ∀ t ∈ s.trades, isDuePending nowMs t = false) :
    (createTrade s v).1 = Except.ok () ∧
      ((createTrade s v).2.accounts.find? (fun x => x.id == v.userId)) =
        some { a with balance := a.balance - v.amount } ∧
      ((resolvePendingTrades (createTrade s v).2 nowMs
          rand).1.accounts.find? (fun x => x.id == v.userId)) =
        some { a with balance := a.balance - v.amount +
          (computeSettlement v.amount v.entryPrice (rand 0).1
            (rand 0).2).finalAmount } := by
  have hnlt : ¬(a.balance < v.amount) := not_lt.mpr hW
  have hcreate : createTrade s v = (Except.ok (), EngineState.mk
      (s.accounts.map (fun x =>
        if x.id == v.userId then { x with balance := a.balance - v.amount }
        else x))
      (s.trades ++ [tradeToInsert v])) := by
    unfold createTrade
    simp only [hfind]
    rw [if_neg hnlt]
  have haccs1 : (createTrade s v).2.accounts =
      s.accounts.map (fun x =>
        if x.id == v.userId then { x with balance := a.balance - v.amount }
        else x) := by
    rw [hcreate]
  have htrades1 : (createTrade s v).2.trades =
      s.trades ++ [tradeToInsert v] := by
    rw [hcreate]
  have hfind1 : ((createTrade s v).2.accounts.find?
      (fun x => x.id == v.userId)) =
      some { a with balance := a.balance - v.amount } := by
    rw [haccs1, find?_balance_update, hfind]
    rfl
  have hrowdue : isDuePending nowMs (tradeToInsert v) = true := by
    simp [isDuePending, tradeToInsert, hstatus, hdue]
  have hrow_dt : (tradeToInsert v).delivery_time ≤ nowMs := hdue
  have hfilter1 : (createTrade s v).2.trades.filter (isDuePending nowMs) =
      [tradeToInsert v] := by
    rw [htrades1, List.filter_append,
      List.filter_eq_nil_iff.mpr (fun t ht => by simp [hquiet t ht])]
    simp [hrowdue]
  have hres : (resolvePendingTrades (createTrade s v).2 nowMs rand).1 =
      resolveTradeTx (createTrade s v).2 (tradeToInsert v) nowMs
        (rand 0) := by
    show (resolveLoop (createTrade s v).2
        ((createTrade s v).2.trades.filter (isDuePending nowMs)) nowMs
        rand 0).1 = _
    rw [hfilter1, resolveLoop_cons, if_pos hrow_dt]
    show (resolveLoop (resolveTradeTx (createTrade s v).2
      (tradeToInsert v) nowMs (rand 0)) [] nowMs rand 1).1 = _
    rw [resolveLoop_nil]
  refine ⟨by rw [hcreate], hfind1, ?_⟩
  rw [hres, resolveTradeTx_accounts_of_due _ _ hrow_dt]
  show (creditAccount (createTrade s v).2.accounts v.userId
      (computeSettlement v.amount v.entryPrice (rand 0).1
        (rand 0).2).finalAmount).find? (fun x => x.id == v.userId) = _
  rw [creditAccount_found _ _ _ _ hfind1, find?_balance_update, hfind1]
  rfl

/-- A store with one account and no trades at all. -/
def quietState : EngineState := { accounts := [sampleAccount], trades := [] }

/-- Witness for `balance_conservation_create_resolve` on the quiet
store. -/
theorem balance_conservation_witness :
    honestRequest.amount ≤ sampleAccount.balance ∧
      ((resolvePendingTrades (createTrade quietState honestRequest).2 9
          sampleRand).1.accounts.find?
          (fun x => x.id == honestRequest.userId)) =
        some { sampleAccount with balance := sampleAccount.balance -
          honestRequest.amount +
          (computeSettlement honestRequest.amount honestRequest.entryPrice
            (sampleRand 0).1 (sampleRand 0).2).finalAmount } :=
  ⟨by norm_num [honestRequest, forgedRequest, sampleAccount],
    (balance_conservation_create_resolve quietState honestRequest
      sampleAccount 9 sampleRand rfl
      (by norm_num [honestRequest, forgedRequest, sampleAccount]) rfl
      (by norm_num [honestRequest, forgedRequest])
      (fun t ht => absurd ht (List.not_mem_nil t))).2.2⟩

end TradeEngine
